import Mathlib

/-!
Shallow embedding of the flag-set (bitmask) library in src/bitmask/bitmask.py.

Modelling conventions:
* A Python IntFlag enumeration class is modelled by `FlagEnum`: a numeric
  identity (two distinct enumeration classes are never equal in Python, even
  with the same members, so each carries a `uid`) together with the list of
  member bit values in declaration order.
* The placeholder enumeration created by the constructor
  (an IntFlag with an empty name list, hence zero members) is `placeholderEnum`.
* An IntFlag member is `FlagMember`: the enumeration it belongs to plus its integer
  value.  IntFlag members are int subclass instances, so arithmetic uses the
  numeric value.
* A `Bitmask` instance is its two attributes: the raw integer value `value`
  and the bound enumeration `allFlags`.  Python integers are unbounded and may
  be negative, so `value : Int`; bitwise operations are the two's-complement
  operations `Int.land`, `Int.lor`, `Int.xor`, `Int.lnot`.
* Python exceptions become `Except BmError`; the distinct raise sites of the
  source each get one `BmError` constructor.
* Arbitrary Python objects appearing as operands (bitmasks, flags, ints,
  bools, floats, complex numbers, strings, anything else) are the closed
  union `PyObj`, with one arm per behaviourally distinct kind.
-/

/-- A caller-supplied flag enumeration: class identity plus the member bit
values in declaration order. -/
structure FlagEnum where
  uid : Nat
  members : List Nat
deriving DecidableEq, Repr

/-- The zero-member placeholder enumeration installed by the constructor. -/
def placeholderEnum : FlagEnum := ⟨0, []⟩

/-- A member of a flag enumeration (an IntFlag member: an int-valued named
constant carrying its enumeration class). -/
structure FlagMember where
  enum : FlagEnum
  val : Nat
deriving DecidableEq, Repr

/-- State of one Bitmask instance: the raw integer `_value` and the bound
enumeration `_AllFlags`. -/
structure Bitmask where
  value : Int
  allFlags : FlagEnum
deriving DecidableEq, Repr

/-- The constructor `Bitmask()` called with no flags: value 0 and the
placeholder enumeration. -/
def Bitmask.new : Bitmask := ⟨0, placeholderEnum⟩

/-- The `defined` property: whether `AllFlags` has been set to a non-empty
enumeration (`len(self.AllFlags) > 0`). -/
def Bitmask.defined (m : Bitmask) : Bool := m.allFlags.members.length > 0

/-- One constructor per distinct raise site of the source:
`conflictingEnumTypes` and `valueNotInteger` and `itemMustBe` and
`canOnlyApply` and `canOnlyDiscard` are the TypeError sites of the class,
`keyError` is the KeyError in `remove`, and `hostTypeError` stands for a
TypeError raised by a primitive integer operation itself (such as `int & str`),
which carries no formatted message from the class. -/
inductive BmError where
  | conflictingEnumTypes
  | valueNotInteger
  | itemMustBe
  | canOnlyApply
  | canOnlyDiscard
  | keyError
  | hostTypeError
deriving DecidableEq, Repr

/-- Closed union of Python values that can reach the operations. -/
inductive PyObj where
  | mask (b : Bitmask)
  | flag (f : FlagMember)
  | intVal (n : Int)
  | boolVal (b : Bool)
  | floatVal
  | complexVal
  | strVal
  | objVal
deriving DecidableEq, Repr

/-- Python `issubclass(type(v), int)`: true for plain ints, for bools (bool is
an int subclass in Python), and for IntFlag members (IntFlag subclasses int). -/
def PyObj.isIntSubclass : PyObj → Bool
  | .intVal _ => true
  | .boolVal _ => true
  | .flag _ => true
  | _ => false

/-- Numeric value of an int-subclass object (booleans count as 1 and 0). -/
def PyObj.toInt : PyObj → Int
  | .intVal n => n
  | .boolVal b => cond b 1 0
  | .flag f => (f.val : Int)
  | _ => 0

/-- Python `issubclass(type(o), E)` for an enumeration class `E`: true exactly
for members of `E`. -/
def PyObj.isInstanceOfEnum : PyObj → FlagEnum → Bool
  | .flag f, e => f.enum = e
  | _, _ => false

/-- The `AllFlags` property setter.  It is only reachable with enumeration
classes (every internal call site passes an EnumMeta, so the leading
`issubclass(type(value), EnumMeta)` guard never fires there): if the current
enumeration is non-empty and differs from the new one it raises
TypeError("conflicting Enum types"), otherwise it assigns. -/
def Bitmask.setAllFlags (m : Bitmask) (v : FlagEnum) : Except BmError Bitmask :=
  if m.allFlags.members.length ≠ 0 then
    if m.allFlags ≠ v then .error .conflictingEnumTypes
    else .ok { m with allFlags := v }
  else .ok { m with allFlags := v }

/-- The `value` property setter: accepts any int subclass instance verbatim,
raises TypeError("value must be an integer") otherwise. -/
def Bitmask.setValue (m : Bitmask) (v : PyObj) : Except BmError Bitmask :=
  if v.isIntSubclass then .ok { m with value := v.toInt }
  else .error .valueNotInteger

/-- The raw bit test `bool(self.value & item)` for an int-valued item. -/
def Bitmask.hasFlag (m : Bitmask) (v : Nat) : Bool :=
  decide (Int.land m.value (v : Int) ≠ 0)

/-- `__contains__` restricted to a single flag item: the branch
`issubclass(type(item), self.AllFlags) or not self.defined` guards the raw bit
test, anything else raises TypeError("item must be ..."). -/
def Bitmask.containsFlag (m : Bitmask) (f : FlagMember) : Except BmError Bool :=
  if f.enum = m.allFlags ∨ m.defined = false then .ok (m.hasFlag f.val)
  else .error .itemMustBe

/-- `__iter__`: the members of the bound enumeration, in declaration order,
filtered to the ones whose bit is set in the raw value. -/
def Bitmask.enabledFlags (m : Bitmask) : List FlagMember :=
  (m.allFlags.members.filter (fun v => m.hasFlag v)).map (fun v => ⟨m.allFlags, v⟩)

/-- The subset loop of `__contains__`: test each flag of the operand in turn,
returning False on the first absent one and propagating any raise from the
single-flag test. -/
def Bitmask.containsAll (m : Bitmask) : List FlagMember → Except BmError Bool
  | [] => .ok true
  | f :: fs =>
    match m.containsFlag f with
    | .error e => .error e
    | .ok true => m.containsAll fs
    | .ok false => .ok false

/-- `__contains__` over an arbitrary item.  A bitmask operand triggers the
subset test over its enabled flags; a flag (or any item at all, when the
receiver is still undefined) falls through to `bool(self.value & item)`; with
a defined receiver any other item raises TypeError("item must be ...").  When
the receiver is undefined and the item is not numeric, the `&` operation
itself raises the host TypeError. -/
def Bitmask.contains (m : Bitmask) (item : PyObj) : Except BmError Bool :=
  match item with
  | .mask b => m.containsAll b.enabledFlags
  | .flag f => m.containsFlag f
  | .intVal n =>
    if m.defined = false then .ok (decide (Int.land m.value n ≠ 0))
    else .error .itemMustBe
  | .boolVal b =>
    if m.defined = false then .ok (decide (Int.land m.value (cond b 1 0) ≠ 0))
    else .error .itemMustBe
  | _ =>
    if m.defined = false then .error .hostTypeError
    else .error .itemMustBe

/-- Python set equality of two iterated flag lists (`set(A) == set(B)`). -/
def sameFlagSet (xs ys : List FlagMember) : Bool :=
  xs.all (fun f => decide (f ∈ ys)) && ys.all (fun f => decide (f ∈ xs))

/-- `__eq__` against another Bitmask: if both sides are defined their
enumerations must coincide, then the sets of enabled flags are compared. -/
def Bitmask.eqMask (m other : Bitmask) : Bool :=
  if other.defined && m.defined then
    if other.allFlags ≠ m.allFlags then false
    else sameFlagSet other.enabledFlags m.enabledFlags
  else sameFlagSet other.enabledFlags m.enabledFlags

/-- `__eq__` against an arbitrary object: anything that is not a Bitmask
compares unequal.  The body never raises (the only iteration is over each
operand's own members), so the result is a total Bool. -/
def Bitmask.eqPy (m : Bitmask) (other : PyObj) : Bool :=
  match other with
  | .mask b => m.eqMask b
  | _ => false

/-- `__mask_op`: resolve the operand (re-binding `self.AllFlags` through the
setter, which may raise and which mutates the receiver), then build a fresh
Bitmask, bind it to the resolved enumeration and assign the combined value
through the value setter.  Returns the pair (receiver after the operation,
new result bitmask) to expose the mutation of the receiver. -/
def Bitmask.maskOp (m : Bitmask) (other : PyObj) (op : Int → Int → Int) :
    Except BmError (Bitmask × Bitmask) :=
  match other with
  | .mask b =>
    match m.setAllFlags b.allFlags with
    | .error e => .error e
    | .ok self =>
      match Bitmask.new.setAllFlags self.allFlags with
      | .error e => .error e
      | .ok fresh =>
        match fresh.setValue (.intVal (op self.value b.value)) with
        | .error e => .error e
        | .ok res => .ok (self, res)
  | .flag f =>
    match m.setAllFlags f.enum with
    | .error e => .error e
    | .ok self =>
      match Bitmask.new.setAllFlags self.allFlags with
      | .error e => .error e
      | .ok fresh =>
        match fresh.setValue (.intVal (op self.value (f.val : Int))) with
        | .error e => .error e
        | .ok res => .ok (self, res)
  | _ => .error .canOnlyApply

/-- `__add__`: union, `lambda a, b: a | b`. -/
def Bitmask.opAdd (m : Bitmask) (other : PyObj) : Except BmError (Bitmask × Bitmask) :=
  m.maskOp other (fun a b => Int.lor a b)

/-- `__or__` simply delegates to `__add__`. -/
def Bitmask.opOr (m : Bitmask) (other : PyObj) : Except BmError (Bitmask × Bitmask) :=
  m.opAdd other

/-- `__xor__`: symmetric difference, `lambda a, b: a ^ b`. -/
def Bitmask.opXor (m : Bitmask) (other : PyObj) : Except BmError (Bitmask × Bitmask) :=
  m.maskOp other (fun a b => Int.xor a b)

/-- `__and__`: intersection, `lambda a, b: a & b`. -/
def Bitmask.opAnd (m : Bitmask) (other : PyObj) : Except BmError (Bitmask × Bitmask) :=
  m.maskOp other (fun a b => Int.land a b)

/-- `__sub__`: difference, `lambda a, b: a & ~b`. -/
def Bitmask.opSub (m : Bitmask) (other : PyObj) : Except BmError (Bitmask × Bitmask) :=
  m.maskOp other (fun a b => Int.land a (Int.lnot b))

/-- The mutating `add` method: `self.value = (self + other).value`.  The
receiver state after the `+` (whose binding may have been resolved) receives
the new raw value through the value setter. -/
def Bitmask.add (m : Bitmask) (other : PyObj) : Except BmError Bitmask :=
  match m.opAdd other with
  | .error e => .error e
  | .ok (self, res) => self.setValue (.intVal res.value)

/-- `discard`: with a defined enumeration the argument must be one of its
members, otherwise TypeError("can only discard ..."); then
`self.value = self.__mask_op(flag, lambda a, b: a & ~b).value`. -/
def Bitmask.discard (m : Bitmask) (flag : PyObj) : Except BmError Bitmask :=
  if m.defined && !(flag.isInstanceOfEnum m.allFlags) then .error .canOnlyDiscard
  else
    match m.maskOp flag (fun a b => Int.land a (Int.lnot b)) with
    | .error e => .error e
    | .ok (self, res) => self.setValue (.intVal res.value)

/-- `remove`: `if flag not in self: raise KeyError(...)`, then discard.
The membership test runs on the unmodified receiver and the KeyError is
raised before any assignment. -/
def Bitmask.remove (m : Bitmask) (flag : PyObj) : Except BmError Bitmask :=
  match m.contains flag with
  | .error e => .error e
  | .ok false => .error .keyError
  | .ok true => m.discard flag

/-! Helper lemmas about integer bits. -/

/-- Bit test commutes with the embedding of naturals into integers. -/
lemma intTestBit_natCast (n k : Nat) : ((n : Int)).testBit k = n.testBit k := rfl

/-- No bit of zero is set. -/
lemma intTestBit_zero (k : Nat) : (0 : Int).testBit k = false := Nat.zero_testBit k

/-- Two integers agreeing on every bit of their two's-complement
representation are equal. -/
lemma int_eq_of_testBit_eq {a b : Int} (h : ∀ k, a.testBit k = b.testBit k) : a = b := by
  cases a with
  | ofNat m =>
    cases b with
    | ofNat n =>
      have hmn : m = n := Nat.eq_of_testBit_eq (fun k => h k)
      rw [hmn]
    | negSucc n =>
      exfalso
      have hm : Nat.testBit m (m + n) = false :=
        Nat.testBit_lt_two_pow (lt_of_lt_of_le (Nat.lt_two_pow m)
          (Nat.pow_le_pow_right (by norm_num) (Nat.le_add_right m n)))
      have hn : Nat.testBit n (m + n) = false :=
        Nat.testBit_lt_two_pow (lt_of_lt_of_le (Nat.lt_two_pow n)
          (Nat.pow_le_pow_right (by norm_num) (Nat.le_add_left n m)))
      have hb := h (m + n)
      simp only [Int.testBit] at hb
      rw [hm, hn] at hb
      simp at hb
  | negSucc m =>
    cases b with
    | ofNat n =>
      exfalso
      have hm : Nat.testBit m (m + n) = false :=
        Nat.testBit_lt_two_pow (lt_of_lt_of_le (Nat.lt_two_pow m)
          (Nat.pow_le_pow_right (by norm_num) (Nat.le_add_right m n)))
      have hn : Nat.testBit n (m + n) = false :=
        Nat.testBit_lt_two_pow (lt_of_lt_of_le (Nat.lt_two_pow n)
          (Nat.pow_le_pow_right (by norm_num) (Nat.le_add_left n m)))
      have hb := h (m + n)
      simp only [Int.testBit] at hb
      rw [hm, hn] at hb
      simp at hb
    | negSucc n =>
      have hmn : m = n := Nat.eq_of_testBit_eq (fun k => by
        have hb := h k
        simp only [Int.testBit] at hb
        exact Bool.not_inj hb)
      rw [hmn]

/-- Bitwise and with zero gives zero. -/
lemma int_land_zero (x : Int) : Int.land x 0 = 0 := by
  apply int_eq_of_testBit_eq
  intro k
  rw [Int.testBit_land]
  simp [intTestBit_zero]

/-- Testing one power-of-two bit by masking agrees with `testBit`. -/
lemma int_land_two_pow_ne_zero_iff (x : Int) (k : Nat) :
    Int.land x ((2 ^ k : Nat) : Int) ≠ 0 ↔ x.testBit k = true := by
  constructor
  · intro hne
    by_contra htb
    apply hne
    apply int_eq_of_testBit_eq
    intro j
    rw [Int.testBit_land, intTestBit_zero]
    by_cases hj : j = k
    · subst hj
      rw [Bool.not_eq_true] at htb
      rw [htb, Bool.false_and]
    · rw [intTestBit_natCast, Nat.testBit_two_pow_of_ne (Ne.symm hj), Bool.and_false]
  · intro htb hzero
    have hb := congrArg (fun z => Int.testBit z k) hzero
    simp only [Int.testBit_land, intTestBit_natCast, intTestBit_zero] at hb
    rw [htb, Nat.testBit_two_pow_self, Bool.true_and] at hb
    simp at hb

/-- `hasFlag` at a power-of-two member value is exactly the bit test. -/
lemma hasFlag_two_pow (m : Bitmask) (k : Nat) : m.hasFlag (2 ^ k) = m.value.testBit k := by
  unfold Bitmask.hasFlag
  cases htb : m.value.testBit k with
  | true => exact decide_eq_true ((int_land_two_pow_ne_zero_iff m.value k).mpr htb)
  | false =>
    have hnot : ¬ Int.land m.value ((2 ^ k : Nat) : Int) ≠ 0 := fun hne => by
      rw [(int_land_two_pow_ne_zero_iff m.value k).mp hne] at htb
      exact Bool.noConfusion htb
    exact decide_eq_false hnot

/-- `hasFlag` at a zero-valued member is always false. -/
lemma hasFlag_zero (m : Bitmask) : m.hasFlag 0 = false := by
  simp [Bitmask.hasFlag, int_land_zero]


/-! Structural lemmas about binding resolution and the shared operator core. -/

/-- Re-binding to the enumeration already held always succeeds and is the
identity. -/
lemma setAllFlags_self {m : Bitmask} {e : FlagEnum} (h : m.allFlags = e) :
    m.setAllFlags e = .ok m := by
  subst h
  unfold Bitmask.setAllFlags
  split <;> simp

/-- An instance still holding the empty placeholder accepts any binding. -/
lemma setAllFlags_of_undefined {m : Bitmask} (h : m.allFlags.members = [])
    (e : FlagEnum) : m.setAllFlags e = .ok { m with allFlags := e } := by
  unfold Bitmask.setAllFlags
  rw [h]
  simp

/-- A defined instance rejects every different enumeration. -/
lemma setAllFlags_conflict {m : Bitmask} {e : FlagEnum}
    (h1 : m.allFlags.members ≠ []) (h2 : m.allFlags ≠ e) :
    m.setAllFlags e = .error .conflictingEnumTypes := by
  have hlen : m.allFlags.members.length ≠ 0 := by
    simpa [List.length_eq_zero] using h1
  simp [Bitmask.setAllFlags, hlen, h2]

/-- Inversion for a successful binding assignment: the result swaps in the
new enumeration, and a defined receiver must already hold it. -/
lemma setAllFlags_ok_inv {m m' : Bitmask} {e : FlagEnum}
    (h : m.setAllFlags e = .ok m') :
    m' = { m with allFlags := e } ∧ (m.allFlags.members ≠ [] → m.allFlags = e) := by
  unfold Bitmask.setAllFlags at h
  by_cases h1 : m.allFlags.members.length ≠ 0
  · rw [if_pos h1] at h
    by_cases h2 : m.allFlags ≠ e
    · rw [if_pos h2] at h
      exact absurd h (by simp)
    · rw [if_neg h2] at h
      exact ⟨(Except.ok.inj h).symm, fun _ => not_not.mp h2⟩
  · rw [if_neg h1] at h
    refine ⟨(Except.ok.inj h).symm, fun hne => absurd ?_ h1⟩
    simpa [List.length_eq_zero] using hne

/-- A fresh `Bitmask()` accepts any enumeration. -/
lemma new_setAllFlags (e : FlagEnum) : Bitmask.new.setAllFlags e = .ok ⟨0, e⟩ := rfl

/-- Assigning a plain integer through the value setter always succeeds. -/
lemma setValue_int (m : Bitmask) (w : Int) :
    m.setValue (.intVal w) = .ok { m with value := w } := rfl

/-- Once the binding assignment of `__mask_op` has succeeded with a bitmask
operand, the rest of the body is deterministic. -/
lemma maskOp_mask_ok_form {m s : Bitmask} (b : Bitmask) (op : Int → Int → Int)
    (hset : m.setAllFlags b.allFlags = .ok s) :
    m.maskOp (.mask b) op = .ok (s, ⟨op s.value b.value, s.allFlags⟩) := by
  simp only [Bitmask.maskOp]
  rw [hset]
  rfl

/-- A failing binding assignment aborts `__mask_op` with the same error. -/
lemma maskOp_mask_err_form {m : Bitmask} {b : Bitmask} {e : BmError}
    (op : Int → Int → Int) (hset : m.setAllFlags b.allFlags = .error e) :
    m.maskOp (.mask b) op = .error e := by
  simp only [Bitmask.maskOp]
  rw [hset]

/-- Once the binding assignment of `__mask_op` has succeeded with a flag
operand, the rest of the body is deterministic. -/
lemma maskOp_flag_ok_form {m s : Bitmask} (f : FlagMember) (op : Int → Int → Int)
    (hset : m.setAllFlags f.enum = .ok s) :
    m.maskOp (.flag f) op = .ok (s, ⟨op s.value (f.val : Int), s.allFlags⟩) := by
  simp only [Bitmask.maskOp]
  rw [hset]
  rfl

/-- A failing binding assignment aborts `__mask_op` with the same error. -/
lemma maskOp_flag_err_form {m : Bitmask} {f : FlagMember} {e : BmError}
    (op : Int → Int → Int) (hset : m.setAllFlags f.enum = .error e) :
    m.maskOp (.flag f) op = .error e := by
  simp only [Bitmask.maskOp]
  rw [hset]

/-- `__mask_op` between two bitmasks over one shared enumeration: the receiver
is untouched and the result holds the combined value under that enumeration. -/
lemma maskOp_mask_of_same {A B : Bitmask} {e : FlagEnum} (hA : A.allFlags = e)
    (hB : B.allFlags = e) (op : Int → Int → Int) :
    A.maskOp (.mask B) op = .ok (A, ⟨op A.value B.value, e⟩) := by
  subst hA
  rw [maskOp_mask_ok_form B op (by rw [hB]; exact setAllFlags_self rfl)]

/-- `__mask_op` with a member of the receiver's own enumeration. -/
lemma maskOp_flag_of_same {A : Bitmask} {f : FlagMember} (hA : A.allFlags = f.enum)
    (op : Int → Int → Int) :
    A.maskOp (.flag f) op = .ok (A, ⟨op A.value (f.val : Int), f.enum⟩) := by
  rw [maskOp_flag_ok_form f op (setAllFlags_self hA), hA]

/-- `__mask_op` on an unbound receiver with a bitmask operand: the receiver is
re-bound to the operand's enumeration. -/
lemma maskOp_mask_of_undefined {A : Bitmask} (hA : A.allFlags.members = [])
    (B : Bitmask) (op : Int → Int → Int) :
    A.maskOp (.mask B) op
      = .ok ({ A with allFlags := B.allFlags }, ⟨op A.value B.value, B.allFlags⟩) := by
  rw [maskOp_mask_ok_form B op (setAllFlags_of_undefined hA B.allFlags)]

/-- `__mask_op` on an unbound receiver with a flag operand: the receiver is
re-bound to the flag's enumeration. -/
lemma maskOp_flag_of_undefined {A : Bitmask} (hA : A.allFlags.members = [])
    (f : FlagMember) (op : Int → Int → Int) :
    A.maskOp (.flag f) op
      = .ok ({ A with allFlags := f.enum }, ⟨op A.value (f.val : Int), f.enum⟩) := by
  rw [maskOp_flag_ok_form f op (setAllFlags_of_undefined hA f.enum)]

/-- `__mask_op` on a defined receiver with a bitmask operand of a different
enumeration raises the conflict error. -/
lemma maskOp_mask_conflict {A B : Bitmask} (h1 : A.allFlags.members ≠ [])
    (h2 : A.allFlags ≠ B.allFlags) (op : Int → Int → Int) :
    A.maskOp (.mask B) op = .error .conflictingEnumTypes := by
  exact maskOp_mask_err_form op (setAllFlags_conflict h1 h2)

/-- Frame property of the shared operator core: on success the receiver's raw
value is untouched, the result shares the receiver's final enumeration, and a
defined receiver keeps its enumeration. -/
lemma maskOp_frame {m self res : Bitmask} {other : PyObj} {op : Int → Int → Int}
    (h : m.maskOp other op = .ok (self, res)) :
    self.value = m.value ∧ res.allFlags = self.allFlags ∧
      (m.allFlags.members ≠ [] → self.allFlags = m.allFlags) := by
  cases other with
  | mask b =>
    cases hset : m.setAllFlags b.allFlags with
    | error e =>
      rw [maskOp_mask_err_form op hset] at h
      exact absurd h (by simp)
    | ok s =>
      rw [maskOp_mask_ok_form b op hset] at h
      obtain ⟨hs, hdef⟩ := setAllFlags_ok_inv hset
      obtain ⟨h1, h2⟩ := Prod.mk.inj (Except.ok.inj h)
      subst h1
      subst hs
      exact ⟨rfl, by rw [← h2], fun hne => by rw [hdef hne]⟩
  | flag f =>
    cases hset : m.setAllFlags f.enum with
    | error e =>
      rw [maskOp_flag_err_form op hset] at h
      exact absurd h (by simp)
    | ok s =>
      rw [maskOp_flag_ok_form f op hset] at h
      obtain ⟨hs, hdef⟩ := setAllFlags_ok_inv hset
      obtain ⟨h1, h2⟩ := Prod.mk.inj (Except.ok.inj h)
      subst h1
      subst hs
      exact ⟨rfl, by rw [← h2], fun hne => by rw [hdef hne]⟩
  | intVal n => exact absurd h (by simp [Bitmask.maskOp])
  | boolVal b => exact absurd h (by simp [Bitmask.maskOp])
  | floatVal => exact absurd h (by simp [Bitmask.maskOp])
  | complexVal => exact absurd h (by simp [Bitmask.maskOp])
  | strVal => exact absurd h (by simp [Bitmask.maskOp])
  | objVal => exact absurd h (by simp [Bitmask.maskOp])

/-! Claim theorems: binding immutability, value setter, membership errors,
equality totality. -/

/-- C3: once a flag-set is bound to a concrete (non-empty) enumeration, that
binding never changes: re-binding to any different enumeration fails with the
conflict error (regardless of the raw value, so also at value zero), and every
successful operation (the shared operator core with any integer operation and
any operand, and the mutating add, discard, remove and raw-value assignment)
leaves the enumeration unchanged, with operator results carrying the same
enumeration. -/
theorem bound_enum_binding_terminal (m : Bitmask) (h : m.allFlags.members ≠ []) :
    (∀ e2 : FlagEnum, e2 ≠ m.allFlags → m.setAllFlags e2 = .error .conflictingEnumTypes)
    ∧ (∀ (other : PyObj) (op : Int → Int → Int) (self res : Bitmask),
        m.maskOp other op = .ok (self, res) →
        self.allFlags = m.allFlags ∧ res.allFlags = m.allFlags)
    ∧ (∀ (other : PyObj) (m2 : Bitmask), m.add other = .ok m2 → m2.allFlags = m.allFlags)
    ∧ (∀ (fl : PyObj) (m2 : Bitmask), m.discard fl = .ok m2 → m2.allFlags = m.allFlags)
    ∧ (∀ (fl : PyObj) (m2 : Bitmask), m.remove fl = .ok m2 → m2.allFlags = m.allFlags)
    ∧ (∀ (v : PyObj) (m2 : Bitmask), m.setValue v = .ok m2 → m2.allFlags = m.allFlags) := by
  have hdis : ∀ (fl : PyObj) (m2 : Bitmask), m.discard fl = .ok m2 → m2.allFlags = m.allFlags := by
    intro fl m2 hd
    unfold Bitmask.discard at hd
    by_cases hg : (m.defined && !(fl.isInstanceOfEnum m.allFlags)) = true
    · rw [if_pos hg] at hd
      exact absurd hd (by simp)
    · rw [if_neg hg] at hd
      cases hop : m.maskOp fl (fun a b => Int.land a (Int.lnot b)) with
      | error e =>
        rw [hop] at hd
        have hd2 : (Except.error e : Except BmError Bitmask) = .ok m2 := hd
        exact Except.noConfusion hd2
      | ok p =>
        obtain ⟨self, res⟩ := p
        rw [hop] at hd
        have hd2 : self.setValue (.intVal res.value) = .ok m2 := hd
        rw [setValue_int] at hd2
        obtain rfl := Except.ok.inj hd2
        exact (maskOp_frame hop).2.2 h
  refine ⟨?_, ?_, ?_, hdis, ?_, ?_⟩
  · intro e2 hne
    exact setAllFlags_conflict h (fun heq => hne heq.symm)
  · intro other op self res hok
    obtain ⟨-, hres, hdef⟩ := maskOp_frame hok
    exact ⟨hdef h, hres.trans (hdef h)⟩
  · intro other m2 hadd
    unfold Bitmask.add at hadd
    cases hop : m.opAdd other with
    | error e =>
      rw [hop] at hadd
      have h2 : (Except.error e : Except BmError Bitmask) = .ok m2 := hadd
      exact Except.noConfusion h2
    | ok p =>
      obtain ⟨self, res⟩ := p
      rw [hop] at hadd
      have hadd2 : self.setValue (.intVal res.value) = .ok m2 := hadd
      rw [setValue_int] at hadd2
      obtain rfl := Except.ok.inj hadd2
      have hframe := maskOp_frame
        (show m.maskOp other (fun a b => Int.lor a b) = .ok (self, res) from hop)
      exact hframe.2.2 h
  · intro fl m2 hr
    unfold Bitmask.remove at hr
    cases hc : m.contains fl with
    | error e =>
      rw [hc] at hr
      have h2 : (Except.error e : Except BmError Bitmask) = .ok m2 := hr
      exact Except.noConfusion h2
    | ok b =>
      rw [hc] at hr
      cases b with
      | false =>
        have h2 : (Except.error BmError.keyError : Except BmError Bitmask) = .ok m2 := hr
        exact Except.noConfusion h2
      | true =>
        have hr2 : m.discard fl = .ok m2 := hr
        exact hdis fl m2 hr2
  · intro v m2 hv
    unfold Bitmask.setValue at hv
    by_cases hi : v.isIntSubclass = true
    · rw [if_pos hi] at hv
      obtain rfl := Except.ok.inj hv
      rfl
    · rw [if_neg hi] at hv
      exact absurd hv (by simp)

/-- Witness for C3 at a concrete bound, empty (value-zero) flag-set and a
different concrete enumeration. -/
theorem bound_enum_binding_terminal_witness :
    (Bitmask.mk 0 ⟨1, [1]⟩).setAllFlags ⟨2, [2]⟩ = .error .conflictingEnumTypes :=
  (bound_enum_binding_terminal ⟨0, ⟨1, [1]⟩⟩ (by decide)).1 ⟨2, [2]⟩ (by decide)

/-- C4 as the code actually behaves: direct raw-value assignment succeeds
exactly when the supplied object's type is int or a subclass of int (which in
Python includes booleans and all negative integers), storing its numeric value
verbatim; every other object (floats, complex numbers, strings, arbitrary
objects) is rejected with the "value must be an integer" TypeError. -/
theorem setValue_int_subclass (m : Bitmask) (v : PyObj) :
    (v.isIntSubclass = true → m.setValue v = .ok { m with value := v.toInt })
    ∧ (v.isIntSubclass = false → m.setValue v = .error .valueNotInteger) := by
  constructor
  · intro h
    simp [Bitmask.setValue, h]
  · intro h
    simp [Bitmask.setValue, h]

/-- Witness for C4 amended: a plain integer is stored, a float is rejected. -/
theorem setValue_int_subclass_witness :
    (Bitmask.mk 0 ⟨1, [1]⟩).setValue (.intVal 5) = .ok ⟨5, ⟨1, [1]⟩⟩
    ∧ (Bitmask.mk 0 ⟨1, [1]⟩).setValue .floatVal = .error .valueNotInteger :=
  ⟨(setValue_int_subclass ⟨0, ⟨1, [1]⟩⟩ (.intVal 5)).1 rfl,
   (setValue_int_subclass ⟨0, ⟨1, [1]⟩⟩ .floatVal).2 rfl⟩

/-- C4 counterexample: the setter accepts a negative integer and a boolean
(bool is an int subclass), contradicting the claim that such assignments fail
with InvalidValue. -/
theorem setValue_accepts_negative_and_bool :
    (Bitmask.mk 0 ⟨1, [1]⟩).setValue (.intVal (-1)) = .ok ⟨-1, ⟨1, [1]⟩⟩
    ∧ (Bitmask.mk 0 ⟨1, [1]⟩).setValue (.boolVal true) = .ok ⟨1, ⟨1, [1]⟩⟩ :=
  ⟨rfl, rfl⟩

/-- C9: equality against any value is total (the embedded `__eq__` is a plain
Bool-valued function and can raise nothing): every non-flag-set operand
compares unequal, and so does a flag-set bound to a different enumeration. -/
theorem eq_total_never_error (m : Bitmask) :
    (∀ f : FlagMember, m.eqPy (.flag f) = false)
    ∧ (∀ n : Int, m.eqPy (.intVal n) = false)
    ∧ (∀ b : Bool, m.eqPy (.boolVal b) = false)
    ∧ m.eqPy .floatVal = false
    ∧ m.eqPy .complexVal = false
    ∧ m.eqPy .strVal = false
    ∧ m.eqPy .objVal = false
    ∧ (∀ B : Bitmask, B.defined = true → m.defined = true →
        B.allFlags ≠ m.allFlags → m.eqPy (.mask B) = false) := by
  refine ⟨fun f => rfl, fun n => rfl, fun b => rfl, rfl, rfl, rfl, rfl, ?_⟩
  intro B hB hm hne
  simp [Bitmask.eqPy, Bitmask.eqMask, hB, hm, hne]

/-- Witness for C9 at a flag-set compared with a raw flag value, a number and
a flag-set of a different enumeration holding the same raw value. -/
theorem eq_total_never_error_witness :
    (Bitmask.mk 1 ⟨1, [1]⟩).eqPy (.mask ⟨1, ⟨2, [1]⟩⟩) = false
    ∧ (Bitmask.mk 1 ⟨1, [1]⟩).eqPy (.intVal 1) = false
    ∧ (Bitmask.mk 1 ⟨1, [1]⟩).eqPy (.flag ⟨⟨1, [1]⟩, 1⟩) = false :=
  ⟨(eq_total_never_error ⟨1, ⟨1, [1]⟩⟩).2.2.2.2.2.2.2 ⟨1, ⟨2, [1]⟩⟩
      (by decide) (by decide) (by decide),
   (eq_total_never_error ⟨1, ⟨1, [1]⟩⟩).2.1 1,
   (eq_total_never_error ⟨1, ⟨1, [1]⟩⟩).1 ⟨⟨1, [1]⟩, 1⟩⟩

/-- C8 as the code actually behaves: with a bound (defined) receiver every
incompatible item (plain integers, booleans, floats, complex numbers, strings,
arbitrary objects, flags of a foreign enumeration) raises the formatted
"item must be ..." error; with an unbound receiver the test degrades to the
raw bit test `bool(self.value & item)`, so items of int subclass types (plain
integers and booleans) return a boolean without raising, and every item of a
non-int type (floats, complex numbers, strings, arbitrary objects) fails with
the host TypeError of the `&` operator rather than the formatted error. -/
theorem contains_incompatible (m : Bitmask) :
    (m.defined = true →
      (∀ n : Int, m.contains (.intVal n) = .error .itemMustBe)
      ∧ (∀ b : Bool, m.contains (.boolVal b) = .error .itemMustBe)
      ∧ m.contains .floatVal = .error .itemMustBe
      ∧ m.contains .complexVal = .error .itemMustBe
      ∧ m.contains .strVal = .error .itemMustBe
      ∧ m.contains .objVal = .error .itemMustBe
      ∧ (∀ f : FlagMember, f.enum ≠ m.allFlags →
          m.contains (.flag f) = .error .itemMustBe))
    ∧ (m.defined = false →
      (∀ n : Int, m.contains (.intVal n) = .ok (decide (Int.land m.value n ≠ 0)))
      ∧ (∀ b : Bool, m.contains (.boolVal b)
          = .ok (decide (Int.land m.value (cond b 1 0) ≠ 0)))
      ∧ m.contains .floatVal = .error .hostTypeError
      ∧ m.contains .complexVal = .error .hostTypeError
      ∧ m.contains .strVal = .error .hostTypeError
      ∧ m.contains .objVal = .error .hostTypeError) := by
  constructor
  · intro hd
    have hd2 : ¬ m.defined = false := by simp [hd]
    refine ⟨fun n => by simp [Bitmask.contains, hd2],
            fun b => by simp [Bitmask.contains, hd2],
            by simp [Bitmask.contains, hd2],
            by simp [Bitmask.contains, hd2],
            by simp [Bitmask.contains, hd2],
            by simp [Bitmask.contains, hd2], ?_⟩
    intro f hf
    simp [Bitmask.contains, Bitmask.containsFlag, hf, hd]
  · intro hd
    exact ⟨fun n => by simp [Bitmask.contains, hd],
           fun b => by simp [Bitmask.contains, hd],
           by simp [Bitmask.contains, hd],
           by simp [Bitmask.contains, hd],
           by simp [Bitmask.contains, hd],
           by simp [Bitmask.contains, hd]⟩

/-- Witness for C8 amended: a bound flag-set raises on a plain integer; an
unbound flag-set with raw value 5 answers the raw bit test for item 4, yet
fails with the host TypeError on a float item. -/
theorem contains_incompatible_witness :
    (Bitmask.mk 0 ⟨1, [1]⟩).contains (.intVal 7) = .error .itemMustBe
    ∧ (Bitmask.mk 5 ⟨0, []⟩).contains (.intVal 4) = .ok true
    ∧ (Bitmask.mk 5 ⟨0, []⟩).contains .floatVal = .error .hostTypeError := by
  refine ⟨((contains_incompatible ⟨0, ⟨1, [1]⟩⟩).1 (by decide)).1 7, ?_,
    ((contains_incompatible ⟨5, ⟨0, []⟩⟩).2 (by decide)).2.2.1⟩
  have h := ((contains_incompatible ⟨5, ⟨0, []⟩⟩).2 (by decide)).1 4
  rw [h]
  congr 1

/-- C8 counterexample: the claim promises UnsupportedOperand for a plain
integer also on unbound flag-sets, but an unbound empty flag-set answers
False without raising. -/
theorem contains_int_unbound_no_error :
    (Bitmask.mk 0 ⟨0, []⟩).contains (.intVal 1) = .ok false := rfl

/-! Claim theorems: one-sided binding adoption and the operator frame. -/

/-- C1 as the code actually behaves: with exactly one bound operand, the five
binary operations succeed and adopt the bound enumeration only when the
unbound operand is on the left (the left operand is itself re-bound in the
process); with the bound operand on the left and the unbound one on the
right, every binary operation fails with the conflict error, because the
receiver's concrete enumeration is compared against the right operand's
distinct placeholder enumeration. -/
theorem binop_one_bound_amended (L R : Bitmask)
    (hL : L.allFlags.members = []) (hR : R.allFlags.members ≠ []) :
    (L.opAdd (.mask R)
        = .ok ({ L with allFlags := R.allFlags }, ⟨Int.lor L.value R.value, R.allFlags⟩)
     ∧ L.opOr (.mask R)
        = .ok ({ L with allFlags := R.allFlags }, ⟨Int.lor L.value R.value, R.allFlags⟩)
     ∧ L.opXor (.mask R)
        = .ok ({ L with allFlags := R.allFlags }, ⟨Int.xor L.value R.value, R.allFlags⟩)
     ∧ L.opAnd (.mask R)
        = .ok ({ L with allFlags := R.allFlags }, ⟨Int.land L.value R.value, R.allFlags⟩)
     ∧ L.opSub (.mask R)
        = .ok ({ L with allFlags := R.allFlags },
            ⟨Int.land L.value (Int.lnot R.value), R.allFlags⟩))
    ∧ (R.opAdd (.mask L) = .error .conflictingEnumTypes
     ∧ R.opOr (.mask L) = .error .conflictingEnumTypes
     ∧ R.opXor (.mask L) = .error .conflictingEnumTypes
     ∧ R.opAnd (.mask L) = .error .conflictingEnumTypes
     ∧ R.opSub (.mask L) = .error .conflictingEnumTypes) := by
  have hne : R.allFlags ≠ L.allFlags := fun heq => hR (by rw [heq, hL])
  refine ⟨⟨?_, ?_, ?_, ?_, ?_⟩, ⟨?_, ?_, ?_, ?_, ?_⟩⟩
  · exact maskOp_mask_of_undefined hL R _
  · exact maskOp_mask_of_undefined hL R _
  · exact maskOp_mask_of_undefined hL R _
  · exact maskOp_mask_of_undefined hL R _
  · exact maskOp_mask_of_undefined hL R _
  · exact maskOp_mask_conflict hR hne _
  · exact maskOp_mask_conflict hR hne _
  · exact maskOp_mask_conflict hR hne _
  · exact maskOp_mask_conflict hR hne _
  · exact maskOp_mask_conflict hR hne _

/-- Witness for C1 amended at concrete operands: unbound plus bound succeeds
and adopts, bound plus unbound raises the conflict. -/
theorem binop_one_bound_amended_witness :
    Bitmask.opAdd ⟨3, ⟨0, []⟩⟩ (.mask ⟨5, ⟨1, [1, 4]⟩⟩)
      = .ok (⟨3, ⟨1, [1, 4]⟩⟩, ⟨7, ⟨1, [1, 4]⟩⟩)
    ∧ Bitmask.opAdd ⟨5, ⟨1, [1, 4]⟩⟩ (.mask ⟨3, ⟨0, []⟩⟩)
      = .error .conflictingEnumTypes := by
  have h := binop_one_bound_amended ⟨3, ⟨0, []⟩⟩ ⟨5, ⟨1, [1, 4]⟩⟩ rfl (by decide)
  refine ⟨?_, h.2.1⟩
  rw [h.1.1]
  rfl

/-- C1 counterexample: a flag-set bound to a concrete enumeration combined by
+ with an unbound flag-set raises "conflicting Enum types" instead of
succeeding with the bound side's enumeration. -/
theorem binop_bound_left_unbound_right_fails :
    Bitmask.opAdd ⟨0, ⟨1, [1]⟩⟩ (.mask ⟨0, ⟨0, []⟩⟩) = .error .conflictingEnumTypes := rfl

/-- C2 as the code actually behaves: each of the five binary operations, on
success, returns a freshly built result flag-set and never touches either
operand's raw value (the right operand is never written at all), and it never
changes an already-bound left operand's enumeration; however the left operand
is not left fully intact: when it was unbound, the operation re-binds it to
the resolved enumeration (which the result shares). -/
theorem binop_frame_amended (m : Bitmask) (other : PyObj) (self res : Bitmask) :
    (m.opAdd other = .ok (self, res) →
      self.value = m.value ∧ res.allFlags = self.allFlags
        ∧ (m.allFlags.members ≠ [] → self.allFlags = m.allFlags))
    ∧ (m.opOr other = .ok (self, res) →
      self.value = m.value ∧ res.allFlags = self.allFlags
        ∧ (m.allFlags.members ≠ [] → self.allFlags = m.allFlags))
    ∧ (m.opXor other = .ok (self, res) →
      self.value = m.value ∧ res.allFlags = self.allFlags
        ∧ (m.allFlags.members ≠ [] → self.allFlags = m.allFlags))
    ∧ (m.opAnd other = .ok (self, res) →
      self.value = m.value ∧ res.allFlags = self.allFlags
        ∧ (m.allFlags.members ≠ [] → self.allFlags = m.allFlags))
    ∧ (m.opSub other = .ok (self, res) →
      self.value = m.value ∧ res.allFlags = self.allFlags
        ∧ (m.allFlags.members ≠ [] → self.allFlags = m.allFlags)) := by
  refine ⟨fun h => ?_, fun h => ?_, fun h => ?_, fun h => ?_, fun h => ?_⟩
  · exact maskOp_frame (show m.maskOp other (fun a b => Int.lor a b) = .ok (self, res) from h)
  · exact maskOp_frame (show m.maskOp other (fun a b => Int.lor a b) = .ok (self, res) from h)
  · exact maskOp_frame (show m.maskOp other (fun a b => Int.xor a b) = .ok (self, res) from h)
  · exact maskOp_frame (show m.maskOp other (fun a b => Int.land a b) = .ok (self, res) from h)
  · exact maskOp_frame
      (show m.maskOp other (fun a b => Int.land a (Int.lnot b)) = .ok (self, res) from h)

/-- Witness for C2 amended: a union of two bound flag-sets over one
enumeration leaves the receiver's raw value and enumeration unchanged. -/
theorem binop_frame_amended_witness :
    (Bitmask.mk 3 ⟨1, [1, 2]⟩).value = 3
    ∧ (Bitmask.mk 3 ⟨1, [1, 2]⟩).allFlags = ⟨1, [1, 2]⟩ := by
  have h := (binop_frame_amended ⟨3, ⟨1, [1, 2]⟩⟩ (.mask ⟨1, ⟨1, [1, 2]⟩⟩)
      ⟨3, ⟨1, [1, 2]⟩⟩ ⟨Int.lor 3 1, ⟨1, [1, 2]⟩⟩).1 rfl
  exact ⟨h.1, h.2.2 (by decide)⟩

/-- C2 counterexample: a successful + on an unbound left operand re-binds the
left operand, so its state (enumeration binding) is not left as it was. -/
theorem binop_mutates_unbound_left_binding :
    Bitmask.opAdd ⟨0, ⟨0, []⟩⟩ (.flag ⟨⟨1, [1]⟩, 1⟩)
      = .ok (⟨0, ⟨1, [1]⟩⟩, ⟨1, ⟨1, [1]⟩⟩)
    ∧ (⟨0, ⟨1, [1]⟩⟩ : Bitmask) ≠ ⟨0, ⟨0, []⟩⟩ := by
  exact ⟨rfl, by decide⟩

/-! Bit-level behaviour of the four integer operations on member bits. -/

/-- Union: a member bit is set in `a | b` exactly when it is set in either
operand (member values are zero or a single bit). -/
lemma hasFlag_lor_of {m1 m2 m3 : Bitmask} (h : m3.value = Int.lor m1.value m2.value)
    {v : Nat} (hv : v = 0 ∨ ∃ k, v = 2 ^ k) :
    m3.hasFlag v = (m1.hasFlag v || m2.hasFlag v) := by
  rcases hv with h0 | ⟨k, hk⟩
  · subst h0
    simp [hasFlag_zero]
  · subst hk
    rw [hasFlag_two_pow, hasFlag_two_pow, hasFlag_two_pow, h]
    exact Int.testBit_lor m1.value m2.value k

/-- Intersection: a member bit is set in `a & b` exactly when it is set in
both operands. -/
lemma hasFlag_land_of {m1 m2 m3 : Bitmask} (h : m3.value = Int.land m1.value m2.value)
    {v : Nat} (hv : v = 0 ∨ ∃ k, v = 2 ^ k) :
    m3.hasFlag v = (m1.hasFlag v && m2.hasFlag v) := by
  rcases hv with h0 | ⟨k, hk⟩
  · subst h0
    simp [hasFlag_zero]
  · subst hk
    rw [hasFlag_two_pow, hasFlag_two_pow, hasFlag_two_pow, h]
    exact Int.testBit_land m1.value m2.value k

/-- Symmetric difference: a member bit is set in `a ^ b` exactly when it is
set in exactly one operand. -/
lemma hasFlag_xor_of {m1 m2 m3 : Bitmask} (h : m3.value = Int.xor m1.value m2.value)
    {v : Nat} (hv : v = 0 ∨ ∃ k, v = 2 ^ k) :
    m3.hasFlag v = xor (m1.hasFlag v) (m2.hasFlag v) := by
  rcases hv with h0 | ⟨k, hk⟩
  · subst h0
    simp [hasFlag_zero]
  · subst hk
    rw [hasFlag_two_pow, hasFlag_two_pow, hasFlag_two_pow, h]
    exact Int.testBit_lxor m1.value m2.value k

/-- Difference: a member bit is set in `a & ~b` exactly when it is set in the
left operand and not in the right one. -/
lemma hasFlag_sub_of {m1 m2 m3 : Bitmask}
    (h : m3.value = Int.land m1.value (Int.lnot m2.value))
    {v : Nat} (hv : v = 0 ∨ ∃ k, v = 2 ^ k) :
    m3.hasFlag v = (m1.hasFlag v && !(m2.hasFlag v)) := by
  rcases hv with h0 | ⟨k, hk⟩
  · subst h0
    simp [hasFlag_zero]
  · subst hk
    rw [hasFlag_two_pow, hasFlag_two_pow, hasFlag_two_pow, h]
    rw [Int.testBit_land, Int.testBit_lnot]

/-- C5: for flag-sets A and B bound to one shared enumeration, the five
binary operations succeed and their raw results are exactly `a | b`, `a & b`,
`a ^ b` and `a & ~b`; flag-wise, each member of the enumeration is contained
in the result exactly per union, intersection, symmetric difference and
difference of the operands' flags. -/
theorem binop_set_algebra (A B : Bitmask) (e : FlagEnum) (hA : A.allFlags = e)
    (hB : B.allFlags = e)
    (hwf : ∀ v ∈ e.members, v = 0 ∨ ∃ k, v = 2 ^ k) :
    (A.opAdd (.mask B) = .ok (A, ⟨Int.lor A.value B.value, e⟩))
    ∧ (A.opOr (.mask B) = .ok (A, ⟨Int.lor A.value B.value, e⟩))
    ∧ (A.opAnd (.mask B) = .ok (A, ⟨Int.land A.value B.value, e⟩))
    ∧ (A.opXor (.mask B) = .ok (A, ⟨Int.xor A.value B.value, e⟩))
    ∧ (A.opSub (.mask B) = .ok (A, ⟨Int.land A.value (Int.lnot B.value), e⟩))
    ∧ ∀ v ∈ e.members,
        ((Bitmask.mk (Int.lor A.value B.value) e).hasFlag v
            = (A.hasFlag v || B.hasFlag v))
        ∧ ((Bitmask.mk (Int.land A.value B.value) e).hasFlag v
            = (A.hasFlag v && B.hasFlag v))
        ∧ ((Bitmask.mk (Int.xor A.value B.value) e).hasFlag v
            = xor (A.hasFlag v) (B.hasFlag v))
        ∧ ((Bitmask.mk (Int.land A.value (Int.lnot B.value)) e).hasFlag v
            = (A.hasFlag v && !(B.hasFlag v))) := by
  refine ⟨maskOp_mask_of_same hA hB _, maskOp_mask_of_same hA hB _,
          maskOp_mask_of_same hA hB _, maskOp_mask_of_same hA hB _,
          maskOp_mask_of_same hA hB _, ?_⟩
  intro v hv
  exact ⟨hasFlag_lor_of rfl (hwf v hv), hasFlag_land_of rfl (hwf v hv),
         hasFlag_xor_of rfl (hwf v hv), hasFlag_sub_of rfl (hwf v hv)⟩

/-- Power-of-two shape of the members of the enumeration used in witnesses. -/
lemma wf_members_example : ∀ v ∈ ([1, 2] : List Nat), v = 0 ∨ ∃ k, v = 2 ^ k := by
  intro v hv
  fin_cases hv
  · exact Or.inr ⟨0, rfl⟩
  · exact Or.inr ⟨1, rfl⟩

/-- Witness for C5 at two concrete flag-sets over the enumeration with
members 1 and 2. -/
theorem binop_set_algebra_witness :
    Bitmask.opAdd ⟨1, ⟨1, [1, 2]⟩⟩ (.mask ⟨3, ⟨1, [1, 2]⟩⟩)
      = .ok (⟨1, ⟨1, [1, 2]⟩⟩, ⟨Int.lor 1 3, ⟨1, [1, 2]⟩⟩)
    ∧ (Bitmask.mk (Int.lor 1 3) ⟨1, [1, 2]⟩).hasFlag 2
      = ((⟨1, ⟨1, [1, 2]⟩⟩ : Bitmask).hasFlag 2 || (⟨3, ⟨1, [1, 2]⟩⟩ : Bitmask).hasFlag 2) := by
  have h := binop_set_algebra ⟨1, ⟨1, [1, 2]⟩⟩ ⟨3, ⟨1, [1, 2]⟩⟩ ⟨1, [1, 2]⟩ rfl rfl
    wf_members_example
  exact ⟨h.1, (h.2.2.2.2.2 2 (by decide)).1⟩

/-! Computation lemmas for the mutating methods on a compatible flag. -/

/-- `add` with a member of the receiver's own enumeration sets its bit. -/
lemma add_flag_of_same {S : Bitmask} {f : FlagMember} (h : S.allFlags = f.enum) :
    S.add (.flag f) = .ok { S with value := Int.lor S.value (f.val : Int) } := by
  unfold Bitmask.add
  simp only [Bitmask.opAdd]
  rw [maskOp_flag_of_same h]
  rfl

/-- `discard` with a member of the receiver's own enumeration clears its bit. -/
lemma discard_flag_of_same {S : Bitmask} {f : FlagMember} (h : S.allFlags = f.enum) :
    S.discard (.flag f) = .ok { S with value := Int.land S.value (Int.lnot (f.val : Int)) } := by
  unfold Bitmask.discard
  have hinst : PyObj.isInstanceOfEnum (.flag f) S.allFlags = true := by
    simp [PyObj.isInstanceOfEnum, h]
  rw [hinst]
  simp only [Bool.not_true, Bool.and_false, Bool.false_eq_true, if_false]
  rw [maskOp_flag_of_same h]
  rfl

/-- The membership test of a flag of the receiver's own enumeration never
raises and answers the raw bit test. -/
lemma contains_flag_of_same {S : Bitmask} {f : FlagMember} (h : S.allFlags = f.enum) :
    S.contains (.flag f) = .ok (S.hasFlag f.val) := by
  simp [Bitmask.contains, Bitmask.containsFlag, h.symm]

/-- `remove` of a currently present member flag clears its bit. -/
lemma remove_flag_of_same_present {S : Bitmask} {f : FlagMember}
    (h : S.allFlags = f.enum) (hbit : S.hasFlag f.val = true) :
    S.remove (.flag f) = .ok { S with value := Int.land S.value (Int.lnot (f.val : Int)) } := by
  unfold Bitmask.remove
  rw [contains_flag_of_same h, hbit]
  exact discard_flag_of_same h

/-- `remove` of an absent member flag raises KeyError. -/
lemma remove_flag_of_same_absent {S : Bitmask} {f : FlagMember}
    (h : S.allFlags = f.enum) (hbit : S.hasFlag f.val = false) :
    S.remove (.flag f) = .error .keyError := by
  unfold Bitmask.remove
  rw [contains_flag_of_same h, hbit]

/-- Masking a union with one operand recovers that operand's bits. -/
lemma int_land_lor_self (v p : Int) : Int.land (Int.lor v p) p = p := by
  apply int_eq_of_testBit_eq
  intro j
  rw [Int.testBit_land, Int.testBit_lor]
  cases hv : v.testBit j <;> cases hp : p.testBit j <;> simp

/-- Adding disjoint bits and then clearing them restores the original value. -/
lemma int_lor_land_lnot {v p : Int} (h : Int.land v p = 0) :
    Int.land (Int.lor v p) (Int.lnot p) = v := by
  apply int_eq_of_testBit_eq
  intro j
  have hj : (v.testBit j && p.testBit j) = false := by
    have h2 := congrArg (fun z => Int.testBit z j) h
    simp only [Int.testBit_land, intTestBit_zero] at h2
    exact h2
  rw [Int.testBit_land, Int.testBit_lor, Int.testBit_lnot]
  cases hv : v.testBit j <;> cases hp : p.testBit j <;> simp_all

/-- C6: for a flag-set bound to an enumeration and a member flag of that
enumeration, `remove` raises NotFound (KeyError) exactly when the flag's bit
is not currently set; when it is set, `remove` succeeds, the flag is no
longer contained in the result, and every other member flag of the
enumeration keeps its previous containment status.  The failure branch
returns before any state change. -/
theorem remove_notfound_and_frame (S : Bitmask) (e : FlagEnum) (f : FlagMember)
    (hS : S.allFlags = e) (hf : f.enum = e) (hm : f.val ∈ e.members)
    (hwf : ∀ v ∈ e.members, v = 0 ∨ ∃ k, v = 2 ^ k) :
    (S.remove (.flag f) = .error .keyError ↔ S.hasFlag f.val = false)
    ∧ (S.hasFlag f.val = true →
        S.remove (.flag f)
            = .ok { S with value := Int.land S.value (Int.lnot (f.val : Int)) }
        ∧ (Bitmask.mk (Int.land S.value (Int.lnot (f.val : Int))) e).hasFlag f.val = false
        ∧ ∀ g ∈ e.members, g ≠ f.val →
            (Bitmask.mk (Int.land S.value (Int.lnot (f.val : Int))) e).hasFlag g
              = S.hasFlag g) := by
  have hSf : S.allFlags = f.enum := hS.trans hf.symm
  constructor
  · constructor
    · intro herr
      cases hbit : S.hasFlag f.val with
      | false => rfl
      | true =>
        rw [remove_flag_of_same_present hSf hbit] at herr
        exact Except.noConfusion herr
    · intro hbit
      exact remove_flag_of_same_absent hSf hbit
  · intro hbit
    have hfv : ∃ k, f.val = 2 ^ k := by
      rcases hwf f.val hm with h0 | hk
      · rw [h0, hasFlag_zero] at hbit
        exact Bool.noConfusion hbit
      · exact hk
    obtain ⟨k, hk⟩ := hfv
    refine ⟨remove_flag_of_same_present hSf hbit, ?_, ?_⟩
    · rw [hk, hasFlag_two_pow]
      show (Int.land S.value (Int.lnot ((2 ^ k : Nat) : Int))).testBit k = false
      rw [Int.testBit_land, Int.testBit_lnot, intTestBit_natCast,
        Nat.testBit_two_pow_self]
      simp
    · intro g hg hgne
      rcases hwf g hg with hg0 | ⟨j, hj⟩
      · rw [hg0, hasFlag_zero, hasFlag_zero]
      · subst hj
        have hjk : j ≠ k := fun heq => hgne (by rw [heq, ← hk])
        rw [hasFlag_two_pow, hasFlag_two_pow, hk]
        show (Int.land S.value (Int.lnot ((2 ^ k : Nat) : Int))).testBit j
          = S.value.testBit j
        rw [Int.testBit_land, Int.testBit_lnot, intTestBit_natCast,
          Nat.testBit_two_pow_of_ne (Ne.symm hjk)]
        simp

/-- Witness for C6: removing a present flag clears exactly its bit, removing
an absent flag raises KeyError. -/
theorem remove_notfound_and_frame_witness :
    (Bitmask.mk 3 ⟨1, [1, 2]⟩).remove (.flag ⟨⟨1, [1, 2]⟩, 1⟩)
      = .ok ⟨Int.land 3 (Int.lnot 1), ⟨1, [1, 2]⟩⟩
    ∧ (Bitmask.mk 4 ⟨1, [1, 2]⟩).remove (.flag ⟨⟨1, [1, 2]⟩, 1⟩) = .error .keyError := by
  have h1 := remove_notfound_and_frame ⟨3, ⟨1, [1, 2]⟩⟩ ⟨1, [1, 2]⟩ ⟨⟨1, [1, 2]⟩, 1⟩
    rfl rfl (by decide) wf_members_example
  have h2 := remove_notfound_and_frame ⟨4, ⟨1, [1, 2]⟩⟩ ⟨1, [1, 2]⟩ ⟨⟨1, [1, 2]⟩, 1⟩
    rfl rfl (by decide) wf_members_example
  exact ⟨(h1.2 (by decide)).1, h2.1.mpr (by decide)⟩

/-- C7 as the code actually behaves: for a flag-set bound to an enumeration
and a member flag with a nonzero bit that is NOT currently contained,
`add` followed by `remove` of that flag returns the flag-set to exactly its
previous state. -/
theorem add_remove_roundtrip_amended (S : Bitmask) (e : FlagEnum) (f : FlagMember)
    (hS : S.allFlags = e) (hf : f.enum = e) (hm : f.val ∈ e.members)
    (hnz : f.val ≠ 0) (habs : S.hasFlag f.val = false) :
    Except.bind (S.add (.flag f)) (fun s => s.remove (.flag f)) = .ok S := by
  have hSf : S.allFlags = f.enum := hS.trans hf.symm
  rw [add_flag_of_same hSf]
  show Bitmask.remove { S with value := Int.lor S.value (f.val : Int) } (.flag f) = .ok S
  have hbit : Bitmask.hasFlag { S with value := Int.lor S.value (f.val : Int) } f.val
      = true := by
    unfold Bitmask.hasFlag
    apply decide_eq_true
    show Int.land (Int.lor S.value (f.val : Int)) (f.val : Int) ≠ 0
    rw [int_land_lor_self]
    simpa using hnz
  rw [remove_flag_of_same_present
    (show ({ S with value := Int.lor S.value (f.val : Int) } : Bitmask).allFlags = f.enum
      from hSf) hbit]
  have hv0 : Int.land S.value (f.val : Int) = 0 := by
    have hns := of_decide_eq_false habs
    exact not_not.mp hns
  show Except.ok
      ({ S with value
          := Int.land (Int.lor S.value (f.val : Int)) (Int.lnot (f.val : Int)) } : Bitmask)
    = Except.ok S
  rw [int_lor_land_lnot hv0]

/-- Witness for C7 amended at a flag-set with value 2 and the absent flag 1. -/
theorem add_remove_roundtrip_amended_witness :
    Except.bind ((Bitmask.mk 2 ⟨1, [1, 2]⟩).add (.flag ⟨⟨1, [1, 2]⟩, 1⟩))
        (fun s => s.remove (.flag ⟨⟨1, [1, 2]⟩, 1⟩))
      = .ok ⟨2, ⟨1, [1, 2]⟩⟩ :=
  add_remove_roundtrip_amended ⟨2, ⟨1, [1, 2]⟩⟩ ⟨1, [1, 2]⟩ ⟨⟨1, [1, 2]⟩, 1⟩ rfl rfl
    (by decide) (by decide) (by decide)

/-- C7 counterexample: when the flag is already present, add followed by
remove does not restore the previous state: the flag ends up absent. -/
theorem add_remove_drops_preexisting_flag :
    Except.bind ((Bitmask.mk 1 ⟨1, [1, 2]⟩).add (.flag ⟨⟨1, [1, 2]⟩, 1⟩))
        (fun s => s.remove (.flag ⟨⟨1, [1, 2]⟩, 1⟩))
      = .ok ⟨0, ⟨1, [1, 2]⟩⟩
    ∧ (Bitmask.mk 0 ⟨1, [1, 2]⟩) ≠ ⟨1, ⟨1, [1, 2]⟩⟩ := by
  constructor
  · have hstep1 : (Bitmask.mk 1 ⟨1, [1, 2]⟩).add (.flag ⟨⟨1, [1, 2]⟩, 1⟩)
        = .ok ⟨1, ⟨1, [1, 2]⟩⟩ := by
      rw [add_flag_of_same rfl]
      rfl
    have hstep2 : (Bitmask.mk 1 ⟨1, [1, 2]⟩).remove (.flag ⟨⟨1, [1, 2]⟩, 1⟩)
        = .ok ⟨Int.land 1 (Int.lnot ((1 : Nat) : Int)), ⟨1, [1, 2]⟩⟩ := by
      rw [remove_flag_of_same_present rfl (by decide)]
    have hldiff : Int.land (1 : Int) (Int.lnot ((1 : Nat) : Int)) = 0 := by
      show ((Nat.ldiff 1 1 : Nat) : Int) = 0
      norm_num [Nat.ldiff, Nat.bitwise]
    rw [hstep1]
    show (Bitmask.mk 1 ⟨1, [1, 2]⟩).remove (.flag ⟨⟨1, [1, 2]⟩, 1⟩)
      = .ok ⟨0, ⟨1, [1, 2]⟩⟩
    rw [hstep2, hldiff]
  · decide

/-! Equality as a function of member-bit containment. -/

/-- Membership in the iterated flag list. -/
lemma mem_enabledFlags {m : Bitmask} {g : FlagMember} :
    g ∈ m.enabledFlags
      ↔ g.enum = m.allFlags ∧ g.val ∈ m.allFlags.members ∧ m.hasFlag g.val = true := by
  unfold Bitmask.enabledFlags
  constructor
  · intro hmem
    obtain ⟨v, hv, hgv⟩ := List.mem_map.mp hmem
    obtain ⟨hvm, hbit⟩ := List.mem_filter.mp hv
    subst hgv
    exact ⟨rfl, hvm, hbit⟩
  · rintro ⟨he, hv, hbit⟩
    apply List.mem_map.mpr
    refine ⟨g.val, List.mem_filter.mpr ⟨hv, hbit⟩, ?_⟩
    obtain ⟨ge, gv⟩ := g
    simp only at he
    rw [he]

/-- The Python set comparison of two iterated flag lists over one shared
enumeration holds exactly when every member bit agrees. -/
lemma sameFlagSet_iff {A B : Bitmask} {e : FlagEnum} (hA : A.allFlags = e)
    (hB : B.allFlags = e) :
    sameFlagSet A.enabledFlags B.enabledFlags = true
      ↔ ∀ v ∈ e.members, A.hasFlag v = B.hasFlag v := by
  unfold sameFlagSet
  rw [Bool.and_eq_true, List.all_eq_true, List.all_eq_true]
  constructor
  · rintro ⟨h1, h2⟩ v hv
    cases hAv : A.hasFlag v with
    | false =>
      cases hBv : B.hasFlag v with
      | false => rfl
      | true =>
        have hmem : (⟨e, v⟩ : FlagMember) ∈ B.enabledFlags :=
          mem_enabledFlags.mpr ⟨hB.symm, by rw [hB]; exact hv, hBv⟩
        have h2v := of_decide_eq_true (h2 _ hmem)
        have hcontra := (mem_enabledFlags.mp h2v).2.2
        rw [hAv] at hcontra
        exact Bool.noConfusion hcontra
    | true =>
      cases hBv : B.hasFlag v with
      | true => rfl
      | false =>
        have hmem : (⟨e, v⟩ : FlagMember) ∈ A.enabledFlags :=
          mem_enabledFlags.mpr ⟨hA.symm, by rw [hA]; exact hv, hAv⟩
        have h1v := of_decide_eq_true (h1 _ hmem)
        have hcontra := (mem_enabledFlags.mp h1v).2.2
        rw [hBv] at hcontra
        exact Bool.noConfusion hcontra
  · intro hpt
    constructor
    · intro g hg
      obtain ⟨hge, hgv, hbit⟩ := mem_enabledFlags.mp hg
      apply decide_eq_true
      apply mem_enabledFlags.mpr
      refine ⟨hge.trans (hA.trans hB.symm), ?_, ?_⟩
      · rw [hB, ← hA]
        exact hgv
      · rw [← hpt g.val (by rw [hA] at hgv; exact hgv)]
        exact hbit
    · intro g hg
      obtain ⟨hge, hgv, hbit⟩ := mem_enabledFlags.mp hg
      apply decide_eq_true
      apply mem_enabledFlags.mpr
      refine ⟨hge.trans (hB.trans hA.symm), ?_, ?_⟩
      · rw [hA, ← hB]
        exact hgv
      · rw [hpt g.val (by rw [hB] at hgv; exact hgv)]
        exact hbit

/-- C10: equality of two flag-sets bound to one shared (non-empty)
enumeration depends only on which member bits are set in each raw value, so
raw-value bits matching no member are invisible to equality. -/
theorem eq_ignores_nonmember_bits (A B : Bitmask) (e : FlagEnum)
    (hA : A.allFlags = e) (hB : B.allFlags = e) (hE : e.members ≠ []) :
    A.eqPy (.mask B) = true ↔ ∀ v ∈ e.members, A.hasFlag v = B.hasFlag v := by
  have hdA : A.defined = true := by
    unfold Bitmask.defined
    rw [hA]
    simpa [List.length_pos] using hE
  have hdB : B.defined = true := by
    unfold Bitmask.defined
    rw [hB]
    simpa [List.length_pos] using hE
  have hne : ¬ B.allFlags ≠ A.allFlags := by
    rw [hB, hA]
    exact fun hcon => hcon rfl
  show Bitmask.eqMask A B = true ↔ _
  unfold Bitmask.eqMask
  rw [hdA, hdB]
  simp only [Bool.and_self, if_true, if_neg hne]
  rw [sameFlagSet_iff hB hA]
  constructor
  · intro h v hv
    exact (h v hv).symm
  · intro h v hv
    exact (h v hv).symm

/-- Witness for C10: a flag-set whose raw value 4 consists solely of
non-member bits compares equal to the empty flag-set although the raw values
differ. -/
theorem eq_ignores_nonmember_bits_witness :
    (Bitmask.mk 4 ⟨1, [1, 2]⟩).eqPy (.mask ⟨0, ⟨1, [1, 2]⟩⟩) = true
    ∧ (4 : Int) ≠ 0 := by
  refine ⟨(eq_ignores_nonmember_bits ⟨4, ⟨1, [1, 2]⟩⟩ ⟨0, ⟨1, [1, 2]⟩⟩ ⟨1, [1, 2]⟩
      rfl rfl (by decide)).mpr ?_, by decide⟩
  intro v hv
  fin_cases hv <;> decide
